import Mathlib

/-!
Verification of the slog serial-port logger (src/main.rs).

The development shallowly embeds the program logic over `List Nat` byte
sequences and plain Lean strings:

* `findNL`, `extractLines`, `processChunks` embed the line-reassembly loop
  in `main` (the `while let Some(pos) = accumulated_data.iter().position(..)`
  loop together with `drain(..=pos)`).
* `generate_timestamp`, `record` embed the timestamp formatter and the
  record construction (`timestamp ++ line` bytes).
* `processLines`, `loopIter`, `openPort` embed one iteration of the
  streaming loop, including console/file writes, timeout handling, read
  errors, and the fatal file-open path.
* `list_ports`, `portCountHeader`, `print_usb_info`, `print_optional_info`
  embed the `list` subcommand output.

Machine integers are modelled as `Nat`; all byte values of interest are
ASCII so UTF-8 encoding of formatter output is the identity on code points.
-/

/-- Embeds `accumulated_data.iter().position(|&x| x == b'\n')`:
index of the first newline byte, if any. -/
def findNL : List Nat → Option Nat
  | [] => none
  | b :: rest => if b = 10 then some 0 else (findNL rest).map (· + 1)

theorem findNL_lt : ∀ {l : List Nat} {p : Nat}, findNL l = some p → p < l.length := by
  intro l
  induction l with
  | nil => intro p h; simp [findNL] at h
  | cons b rest ih =>
    intro p h
    by_cases hb : b = 10
    · simp [findNL, hb] at h
      simp [List.length_cons]
      omega
    · simp [findNL, hb] at h
      obtain ⟨q, hq, rfl⟩ := h
      have := ih hq
      simp
      omega

theorem findNL_eq_none_iff {l : List Nat} : findNL l = none ↔ (10 : Nat) ∉ l := by
  induction l with
  | nil => simp [findNL]
  | cons b rest ih =>
    by_cases hb : b = 10
    · simp [findNL, hb]
    · simp [findNL, hb, ih]
      intro h
      omega

theorem findNL_take : ∀ {l : List Nat} {p : Nat}, findNL l = some p →
    l.take (p + 1) = l.take p ++ [10] ∧ (10 : Nat) ∉ l.take p := by
  intro l
  induction l with
  | nil => intro p h; simp [findNL] at h
  | cons b rest ih =>
    intro p h
    by_cases hb : b = 10
    · simp [findNL, hb] at h
      subst h
      simp [hb]
    · simp [findNL, hb] at h
      obtain ⟨q, hq, rfl⟩ := h
      obtain ⟨h1, h2⟩ := ih hq
      constructor
      · simp [List.take_succ_cons, h1]
      · simp [h2]
        omega

theorem findNL_append_some : ∀ {s : List Nat} {p : Nat} (t : List Nat),
    findNL s = some p → findNL (s ++ t) = some p := by
  intro s
  induction s with
  | nil => intro p t h; simp [findNL] at h
  | cons b rest ih =>
    intro p t h
    by_cases hb : b = 10
    · simp [findNL, hb] at h ⊢
      omega
    · simp [findNL, hb] at h ⊢
      obtain ⟨q, hq, rfl⟩ := h
      exact ⟨q, ih t hq, rfl⟩

/-- Fuel-indexed body of the inner `while let Some(pos) = ...` loop of
`main`. Each pass drains at least one byte, so the loop runs at most
`buf.length` times; the fuel argument makes the recursion structural. -/
def extractLinesAux : Nat → List Nat → List (List Nat) × List Nat
  | 0, buf => ([], buf)
  | fuel + 1, buf =>
    match findNL buf with
    | none => ([], buf)
    | some pos =>
      let r := extractLinesAux fuel (buf.drop (pos + 1))
      (buf.take (pos + 1) :: r.1, r.2)

/-- Embeds the inner `while let Some(pos) = ... position(|&x| x == b'\n')`
loop of `main`: repeatedly drain the buffer through the first newline
(inclusive), returning the drained lines in order and the remaining buffer. -/
def extractLines (buf : List Nat) : List (List Nat) × List Nat :=
  extractLinesAux buf.length buf

theorem extractLinesAux_fuel : ∀ (fuel : Nat) (buf : List Nat), buf.length ≤ fuel →
    extractLinesAux fuel buf = extractLinesAux buf.length buf := by
  intro fuel
  induction fuel using Nat.strong_induction_on with
  | _ fuel ih =>
    cases fuel with
    | zero =>
      intro buf h
      cases buf with
      | nil => rfl
      | cons a l => simp at h
    | succ f =>
      intro buf h
      cases hf : findNL buf with
      | none =>
        cases buf with
        | nil => rfl
        | cons a l =>
          rw [extractLinesAux, hf]
          rw [List.length_cons, extractLinesAux, hf]
      | some pos =>
        have hlt := findNL_lt hf
        cases buf with
        | nil => simp at hlt
        | cons a l =>
          rw [extractLinesAux, hf]
          rw [List.length_cons, extractLinesAux, hf]
          have hd : ((a :: l).drop (pos + 1)).length ≤ l.length := by
            simp
          have hlen : l.length ≤ f := by
            simp at h
            omega
          have e1 := ih f (by omega) ((a :: l).drop (pos + 1)) (le_trans hd hlen)
          have e2 := ih l.length (by omega) ((a :: l).drop (pos + 1)) hd
          simp only [e1, e2]

theorem extractLines_of_none {buf : List Nat} (h : findNL buf = none) :
    extractLines buf = ([], buf) := by
  unfold extractLines
  cases buf with
  | nil => rfl
  | cons a l =>
    rw [List.length_cons, extractLinesAux, h]

theorem extractLines_of_some {buf : List Nat} {pos : Nat} (h : findNL buf = some pos) :
    extractLines buf =
      (buf.take (pos + 1) :: (extractLines (buf.drop (pos + 1))).1,
       (extractLines (buf.drop (pos + 1))).2) := by
  have hlt := findNL_lt h
  unfold extractLines
  cases buf with
  | nil => simp at hlt
  | cons a l =>
    rw [List.length_cons, extractLinesAux, h]
    have hd : ((a :: l).drop (pos + 1)).length ≤ l.length := by
      simp
    have := extractLinesAux_fuel l.length ((a :: l).drop (pos + 1)) hd
    simp only [this]

theorem extractLines_rem_aux : ∀ (n : Nat) (buf : List Nat), buf.length ≤ n →
    findNL (extractLines buf).2 = none := by
  intro n
  induction n with
  | zero =>
    intro buf h
    have : buf = [] := by
      cases buf with
      | nil => rfl
      | cons a l => simp at h
    subst this
    simp [extractLines_of_none, findNL]
  | succ n ih =>
    intro buf h
    cases hf : findNL buf with
    | none => simp [extractLines_of_none hf, hf]
    | some pos =>
      have hlt := findNL_lt hf
      rw [extractLines_of_some hf]
      exact ih (buf.drop (pos + 1)) (by simp; omega)

/-- The buffer left behind by `extractLines` holds no newline byte. -/
theorem extractLines_rem (buf : List Nat) : findNL (extractLines buf).2 = none :=
  extractLines_rem_aux buf.length buf le_rfl

theorem extractLines_join_aux : ∀ (n : Nat) (buf : List Nat), buf.length ≤ n →
    (extractLines buf).1.flatten ++ (extractLines buf).2 = buf := by
  intro n
  induction n with
  | zero =>
    intro buf h
    cases buf with
    | nil => simp [extractLines_of_none, findNL]
    | cons a l => simp at h
  | succ n ih =>
    intro buf h
    cases hf : findNL buf with
    | none => simp [extractLines_of_none hf]
    | some pos =>
      have hlt := findNL_lt hf
      rw [extractLines_of_some hf]
      have hrec := ih (buf.drop (pos + 1)) (by simp; omega)
      simp only [List.flatten_cons, List.append_assoc]
      rw [hrec]
      exact List.take_append_drop (pos + 1) buf

/-- No byte is dropped or duplicated: the drained lines, joined, followed by
the remaining buffer, reproduce the input buffer exactly. -/
theorem extractLines_join (buf : List Nat) :
    (extractLines buf).1.flatten ++ (extractLines buf).2 = buf :=
  extractLines_join_aux buf.length buf le_rfl

theorem count_take_eq_zero {l : List Nat} {p : Nat} (h : (10 : Nat) ∉ l.take p) :
    (l.take p).count 10 = 0 :=
  List.count_eq_zero.mpr h

theorem extractLines_count_aux : ∀ (n : Nat) (buf : List Nat), buf.length ≤ n →
    (extractLines buf).1.length = buf.count 10 := by
  intro n
  induction n with
  | zero =>
    intro buf h
    cases buf with
    | nil => simp [extractLines_of_none, findNL]
    | cons a l => simp at h
  | succ n ih =>
    intro buf h
    cases hf : findNL buf with
    | none =>
      rw [extractLines_of_none hf]
      have := findNL_eq_none_iff.mp hf
      simp [List.count_eq_zero.mpr this]
    | some pos =>
      have hlt := findNL_lt hf
      rw [extractLines_of_some hf]
      have hrec := ih (buf.drop (pos + 1)) (by simp; omega)
      obtain ⟨ht, hnot⟩ := findNL_take hf
      have hsplit : buf = buf.take (pos + 1) ++ buf.drop (pos + 1) :=
        (List.take_append_drop (pos + 1) buf).symm
      calc (buf.take (pos + 1) :: (extractLines (buf.drop (pos + 1))).1,
              (extractLines (buf.drop (pos + 1))).2).1.length
          = (extractLines (buf.drop (pos + 1))).1.length + 1 := by simp
        _ = (buf.drop (pos + 1)).count 10 + 1 := by rw [hrec]
        _ = buf.count 10 := by
              conv_rhs => rw [hsplit]
              rw [List.count_append, ht, List.count_append]
              rw [count_take_eq_zero hnot]
              simp
              omega

/-- The number of drained lines equals the number of newline bytes in the
input buffer. -/
theorem extractLines_count (buf : List Nat) :
    (extractLines buf).1.length = buf.count 10 :=
  extractLines_count_aux buf.length buf le_rfl

theorem extractLines_shape_aux : ∀ (n : Nat) (buf : List Nat), buf.length ≤ n →
    ∀ l ∈ (extractLines buf).1, ∃ pre, l = pre ++ [10] ∧ (10 : Nat) ∉ pre := by
  intro n
  induction n with
  | zero =>
    intro buf h
    cases buf with
    | nil => simp [extractLines_of_none, findNL]
    | cons a l => simp at h
  | succ n ih =>
    intro buf h l hl
    cases hf : findNL buf with
    | none =>
      rw [extractLines_of_none hf] at hl
      simp at hl
    | some pos =>
      have hlt := findNL_lt hf
      rw [extractLines_of_some hf] at hl
      simp only [List.mem_cons] at hl
      cases hl with
      | inl heq =>
        obtain ⟨ht, hnot⟩ := findNL_take hf
        exact ⟨buf.take pos, by rw [heq, ht], hnot⟩
      | inr hmem =>
        exact ih (buf.drop (pos + 1)) (by simp; omega) l hmem

/-- Every drained line is a (possibly empty) newline-free payload followed by
exactly one terminating newline byte. -/
theorem extractLines_shape (buf : List Nat) :
    ∀ l ∈ (extractLines buf).1, ∃ pre, l = pre ++ [10] ∧ (10 : Nat) ∉ pre :=
  extractLines_shape_aux buf.length buf le_rfl

theorem extractLines_append_aux : ∀ (n : Nat) (s : List Nat), s.length ≤ n → ∀ t : List Nat,
    extractLines (s ++ t) =
      ((extractLines s).1 ++ (extractLines ((extractLines s).2 ++ t)).1,
       (extractLines ((extractLines s).2 ++ t)).2) := by
  intro n
  induction n with
  | zero =>
    intro s h t
    cases s with
    | nil => simp [extractLines_of_none, findNL]
    | cons a l => simp at h
  | succ n ih =>
    intro s h t
    cases hf : findNL s with
    | none =>
      rw [extractLines_of_none hf]
      simp
    | some pos =>
      have hlt := findNL_lt hf
      have hf2 : findNL (s ++ t) = some pos := findNL_append_some t hf
      rw [extractLines_of_some hf2, extractLines_of_some hf]
      have htake : (s ++ t).take (pos + 1) = s.take (pos + 1) :=
        List.take_append_of_le_length (by omega)
      have hdrop : (s ++ t).drop (pos + 1) = s.drop (pos + 1) ++ t :=
        List.drop_append_of_le_length (by omega)
      rw [htake, hdrop]
      have hrec := ih (s.drop (pos + 1)) (by simp; omega) t
      rw [hrec]
      simp

/-- Splitting a buffer extended by `t` gives the lines of the original buffer
followed by the lines of the leftover-plus-`t`. -/
theorem extractLines_append (s t : List Nat) :
    extractLines (s ++ t) =
      ((extractLines s).1 ++ (extractLines ((extractLines s).2 ++ t)).1,
       (extractLines ((extractLines s).2 ++ t)).2) :=
  extractLines_append_aux s.length s le_rfl t

/-- Embeds the effect of running successive loop iterations on the
accumulation buffer: each chunk read by `port.read` is appended to the
buffer and all complete lines are drained, carrying the leftover forward. -/
def processChunks : List (List Nat) → List Nat → List (List Nat) × List Nat
  | [], buf => ([], buf)
  | c :: cs, buf =>
    let r := extractLines (buf ++ c)
    let r2 := processChunks cs r.2
    (r.1 ++ r2.1, r2.2)

theorem processChunks_eq_extractLines : ∀ (cs : List (List Nat)) (buf : List Nat),
    findNL buf = none → processChunks cs buf = extractLines (buf ++ cs.flatten) := by
  intro cs
  induction cs with
  | nil =>
    intro buf h
    simp [processChunks, extractLines_of_none h]
  | cons c cs ih =>
    intro buf h
    have hrem : findNL (extractLines (buf ++ c)).2 = none := extractLines_rem (buf ++ c)
    have hrec := ih (extractLines (buf ++ c)).2 hrem
    have happ := extractLines_append (buf ++ c) cs.flatten
    simp only [processChunks]
    rw [hrec]
    have hassoc : buf ++ (c :: cs).flatten = (buf ++ c) ++ cs.flatten := by
      simp [List.flatten_cons]
    rw [hassoc, happ]

/-- Fields sampled from `chrono::Local::now()` for one timestamp: year,
month, day, hour, minute, second, and sub-second milliseconds. The sampling
itself is external wall-clock I/O; the formatter below is what `src/main.rs`
defines over these sampled values. -/
structure LocalTime where
  year : Nat
  month : Nat
  day : Nat
  hour : Nat
  minute : Nat
  second : Nat
  millis : Nat
deriving DecidableEq, Repr

/-- Character for one digit value, as produced by Rust numeric formatting:
`0`-`9` for values below ten, lowercase `a`-`f` for ten to fifteen. -/
def digitChar (n : Nat) : Char :=
  if n < 10 then Char.ofNat (48 + n) else Char.ofNat (87 + n)

/-- Fuel-indexed decimal digit expansion; the value shrinks by a factor of
ten each step, so fuel equal to the value itself always suffices, and the
recursion is structural. -/
def decAuxF : Nat → Nat → List Char
  | _, 0 => []
  | 0, _ + 1 => []
  | fuel + 1, n + 1 => decAuxF fuel ((n + 1) / 10) ++ [digitChar ((n + 1) % 10)]

/-- Decimal digit characters of a positive number, most significant first. -/
def decAux (n : Nat) : List Char := decAuxF n n

/-- Decimal rendering of a `Nat`, as Rust `{}` produces. -/
def decChars (n : Nat) : List Char :=
  if n = 0 then ['0'] else decAux n

/-- Fuel-indexed hexadecimal digit expansion (structural, as `decAuxF`). -/
def hexAuxF : Nat → Nat → List Char
  | _, 0 => []
  | 0, _ + 1 => []
  | fuel + 1, n + 1 => hexAuxF fuel ((n + 1) / 16) ++ [digitChar ((n + 1) % 16)]

/-- Hexadecimal digit characters of a positive number, most significant
first, lowercase as Rust `{:x}` produces. -/
def hexAux (n : Nat) : List Char := hexAuxF n n

/-- Hexadecimal rendering of a `Nat`, as Rust `{:x}` produces. -/
def hexChars (n : Nat) : List Char :=
  if n = 0 then ['0'] else hexAux n

theorem decAuxF_fuel : ∀ (fuel n : Nat), n ≤ fuel → decAuxF fuel n = decAuxF n n := by
  intro fuel
  induction fuel using Nat.strong_induction_on with
  | _ fuel ih =>
    cases fuel with
    | zero =>
      intro n h
      have : n = 0 := by omega
      subst this
      rfl
    | succ f =>
      intro n h
      cases n with
      | zero => rfl
      | succ m =>
        rw [decAuxF, decAuxF]
        have hq : (m + 1) / 10 ≤ m := by
          have := Nat.div_lt_self (Nat.succ_pos m) (show 1 < 10 by norm_num)
          omega
        have e1 := ih f (by omega) ((m + 1) / 10) (by omega)
        have e2 := ih m (by omega) ((m + 1) / 10) hq
        rw [e1, e2]

theorem decAux_succ (n : Nat) :
    decAux (n + 1) = decAux ((n + 1) / 10) ++ [digitChar ((n + 1) % 10)] := by
  unfold decAux
  rw [decAuxF]
  have hq : (n + 1) / 10 ≤ n := by
    have := Nat.div_lt_self (Nat.succ_pos n) (show 1 < 10 by norm_num)
    omega
  rw [decAuxF_fuel n ((n + 1) / 10) hq]

theorem hexAuxF_fuel : ∀ (fuel n : Nat), n ≤ fuel → hexAuxF fuel n = hexAuxF n n := by
  intro fuel
  induction fuel using Nat.strong_induction_on with
  | _ fuel ih =>
    cases fuel with
    | zero =>
      intro n h
      have : n = 0 := by omega
      subst this
      rfl
    | succ f =>
      intro n h
      cases n with
      | zero => rfl
      | succ m =>
        rw [hexAuxF, hexAuxF]
        have hq : (m + 1) / 16 ≤ m := by
          have := Nat.div_lt_self (Nat.succ_pos m) (show 1 < 16 by norm_num)
          omega
        have e1 := ih f (by omega) ((m + 1) / 16) (by omega)
        have e2 := ih m (by omega) ((m + 1) / 16) hq
        rw [e1, e2]

theorem hexAux_succ (n : Nat) :
    hexAux (n + 1) = hexAux ((n + 1) / 16) ++ [digitChar ((n + 1) % 16)] := by
  unfold hexAux
  rw [hexAuxF]
  have hq : (n + 1) / 16 ≤ n := by
    have := Nat.div_lt_self (Nat.succ_pos n) (show 1 < 16 by norm_num)
    omega
  rw [hexAuxF_fuel n ((n + 1) / 16) hq]

/-- Zero padding to width `w`, as Rust `{:0w}` produces: a rendering shorter
than `w` is preceded by zeros, a longer one is kept whole. -/
def pad0 (w : Nat) (s : List Char) : List Char :=
  List.replicate (w - s.length) '0' ++ s

/-- Rust `{:0w}` on a `Nat` (decimal, zero-padded to width `w`). -/
def fmtDec (w n : Nat) : List Char :=
  pad0 w (decChars n)

/-- String form of `fmtDec`. -/
def fmtDecS (w n : Nat) : String :=
  String.mk (fmtDec w n)

/-- Rust `{:0wx}` on a `Nat` (lowercase hex, zero-padded to width `w`). -/
def fmtHex (w n : Nat) : List Char :=
  pad0 w (hexChars n)

/-- String form of `fmtHex`. -/
def fmtHexS (w n : Nat) : String :=
  String.mk (fmtHex w n)

/-- The `RESET = "\x1b[0m"` binding of `generate_timestamp`. -/
def RESET : String := "\x1b[0m"

/-- The `GREEN = "\x1b[32m"` binding of `generate_timestamp`. -/
def GREEN : String := "\x1b[32m"

/-- Embeds `generate_timestamp` of `src/main.rs`: the
`format!("{RESET}[{GREEN}{:04}-{:02}-{:02} {:02}:{:02}:{:02}.{:03}{RESET}] ", ..)`
call applied to the sampled local-time fields. -/
def generate_timestamp (t : LocalTime) : String :=
  RESET ++ "[" ++ GREEN ++ fmtDecS 4 t.year ++ "-" ++ fmtDecS 2 t.month ++ "-"
    ++ fmtDecS 2 t.day ++ " " ++ fmtDecS 2 t.hour ++ ":" ++ fmtDecS 2 t.minute ++ ":"
    ++ fmtDecS 2 t.second ++ "." ++ fmtDecS 3 t.millis ++ RESET ++ "] "

/-- Embeds `String::into_bytes` for the ASCII-only strings this program
formats: each character code point is one UTF-8 byte. -/
def strBytes (s : String) : List Nat :=
  s.data.map Char.toNat

/-- Embeds the record construction in the read loop of `main`: a `Vec` holding
the timestamp bytes followed by the raw line bytes. -/
def record (t : LocalTime) (line : List Nat) : List Nat :=
  strBytes (generate_timestamp t) ++ line

theorem strData_append (s t : String) : (s ++ t).data = s.data ++ t.data := rfl

theorem strData_mk (l : List Char) : (String.mk l).data = l := rfl

/-- Outcome of one `port.read(serial_buf.as_mut_slice())` call, the tagged
result the loop of `main` branches on: `ok` carries the bytes read (possibly
none), `timedOut` is the `ErrorKind::TimedOut` case, and `err` carries the
debug rendering of any other error. -/
inductive ReadResult where
  | ok (chunk : List Nat)
  | timedOut
  | err (msg : String)
deriving DecidableEq, Repr

/-- Observable output action of the process: a write of bytes to stdout, an
appending write of bytes to the configured file, or a line on stderr. -/
inductive Event where
  | consoleWrite (bytes : List Nat)
  | fileWrite (bytes : List Nat)
  | diag (msg : String)
deriving DecidableEq, Repr

/-- The diagnostic `eprintln!("Failed to open \"{}\". Error: {}", path, e)`
used both for the serial port and for the output file. -/
def openDiag (path e : String) : String :=
  "Failed to open \"" ++ path ++ "\". Error: " ++ e

/-- Embeds the per-line body of the read loop of `main`: for each drained
line (indexed so each samples its own timestamp via `ts` and its own file
open via `fopen`), write the record to stdout; when an output file is
configured, open it for append and write the same record, and on an open
failure print the diagnostic and exit with status 1. Returns the events in
order and `some code` when the process exits. -/
def processLines (output : Option String) (ts : Nat → LocalTime)
    (fopen : Nat → Except String Unit) :
    List (List Nat) → Nat → List Event × Option Nat
  | [], _ => ([], none)
  | l :: ls, i =>
    match output with
    | none =>
      let r := processLines none ts fopen ls (i + 1)
      (Event.consoleWrite (record (ts i) l) :: r.1, r.2)
    | some path =>
      match fopen i with
      | Except.ok _ =>
        let r := processLines (some path) ts fopen ls (i + 1)
        (Event.consoleWrite (record (ts i) l) :: Event.fileWrite (record (ts i) l) :: r.1, r.2)
      | Except.error e =>
        ([Event.consoleWrite (record (ts i) l), Event.diag (openDiag path e)], some 1)

/-- Embeds one iteration of the `loop` in `main`: on a successful read the
chunk is appended to the accumulation buffer and all complete lines are
drained and written; a timeout is silently ignored; any other read error is
printed with `eprintln!("{e:?}")`. Returns the emitted events, the new
accumulation buffer, and `some code` when the process exits (otherwise the
loop issues the next read). -/
def loopIter (output : Option String) (ts : Nat → LocalTime)
    (fopen : Nat → Except String Unit) (buf : List Nat) (r : ReadResult) :
    List Event × (List Nat × Option Nat) :=
  match r with
  | ReadResult.ok chunk =>
    let e := extractLines (buf ++ chunk)
    let w := processLines output ts fopen e.1 0
    (w.1, (e.2, w.2))
  | ReadResult.timedOut => ([], (buf, none))
  | ReadResult.err msg => ([Event.diag msg], (buf, none))

/-- Embeds the `serialport::new(..).open()` match in `main`: on failure the
process prints the open diagnostic and exits with status 1; on success it
enters the streaming loop (no exit). -/
def openPort (path : String) (res : Except String Unit) : List Event × Option Nat :=
  match res with
  | Except.ok _ => ([], none)
  | Except.error e => ([Event.diag (openDiag path e)], some 1)

/-- USB metadata of a discovered port (`serialport::UsbPortInfo`). -/
structure UsbPortInfo where
  vid : Nat
  pid : Nat
  serial_number : Option String
  manufacturer : Option String
  product : Option String
deriving DecidableEq, Repr

/-- Transport classification of a discovered port (`serialport::SerialPortType`). -/
inductive PortType where
  | usb (info : UsbPortInfo)
  | bluetooth
  | pci
  | unknown
deriving DecidableEq, Repr

/-- A discovered port (`serialport::SerialPortInfo`). -/
structure PortInfo where
  port_name : String
  port_type : PortType
deriving DecidableEq, Repr

/-- Embeds the `match ports.len()` header of `list_ports`. -/
def portCountHeader (n : Nat) : String :=
  match n with
  | 0 => "No ports found."
  | 1 => "Found 1 port:"
  | n => "Found " ++ String.mk (decChars n) ++ " ports:"

/-- Left-aligned space padding to width `w`, as Rust `{:<w}` produces. -/
def padRight (w : Nat) (s : String) : String :=
  s ++ String.mk (List.replicate (w - s.length) ' ')

/-- Embeds `print_optional_info` of `src/main.rs`:
`println!("    {:<15}: {}", label, opt.as_ref().map_or("", String::as_str))`. -/
def print_optional_info (label : String) (opt : Option String) : String :=
  "    " ++ padRight 15 label ++ ": " ++ opt.getD ""

/-- The `println!("    VID:{:04x} PID:{:04x}", info.vid, info.pid)` line of
`print_usb_info`. -/
def usbIdLine (vid pid : Nat) : String :=
  "    VID:" ++ fmtHexS 4 vid ++ " PID:" ++ fmtHexS 4 pid

/-- Embeds `print_usb_info` of `src/main.rs` (the `usbportinfo-interface`
feature is not enabled, so the interface line is absent). -/
def print_usb_info (info : UsbPortInfo) : List String :=
  [usbIdLine info.vid info.pid,
   print_optional_info "Serial Number" info.serial_number,
   print_optional_info "Manufacturer" info.manufacturer,
   print_optional_info "Product" info.product]

/-- Lines `list_ports` prints for one discovered port. -/
def printPortLines (p : PortInfo) : List String :=
  ("  " ++ p.port_name) ::
  match p.port_type with
  | PortType.usb info => "    Type: USB" :: print_usb_info info
  | PortType.bluetooth => ["    Type: Bluetooth"]
  | PortType.pci => ["    Type: PCI"]
  | PortType.unknown => ["    Type: Unknown"]

/-- Embeds `list_ports` of `src/main.rs` over the result of
`available_ports()` (`none` models the `Err` branch): returns the stdout
lines and the stderr lines. -/
def list_ports (res : Option (List PortInfo)) : List String × List String :=
  match res with
  | some ports => (portCountHeader ports.length :: ports.flatMap printPortLines, [])
  | none => ([], ["Error listing serial ports"])

/-- Embeds the `Command::List` arm of `main`: run `list_ports`, then return
from `main`, which terminates the process with status 0. -/
def runList (res : Option (List PortInfo)) : (List String × List String) × Nat :=
  (list_ports res, 0)

/-- Consume exactly `k` decimal-digit characters, returning the rest. -/
def expectDigits : Nat → List Char → Option (List Char)
  | 0, cs => some cs
  | _ + 1, [] => none
  | k + 1, c :: cs => if c.isDigit then expectDigits k cs else none

/-- Consume an exact literal character sequence, returning the rest. -/
def expectLit : List Char → List Char → Option (List Char)
  | [], cs => some cs
  | _ :: _, [] => none
  | l :: ls, c :: cs => if c = l then expectLit ls cs else none

/-- The ANSI framing the spec fixes before the numeric body:
reset, opening bracket, green. -/
def tsHeadLit : List Char := ['\x1b', '[', '0', 'm', '[', '\x1b', '[', '3', '2', 'm']

/-- The ANSI framing the spec fixes after the numeric body:
reset, closing bracket, space. -/
def tsTailLit : List Char := ['\x1b', '[', '0', 'm', ']', ' ']

/-- Decides the fixed output pattern of the spec for a timestamp prefix:
the ANSI-framed body must match
`[\x64{4}-\x64{2}-\x64{2} \x64{2}:\x64{2}:\x64{2}.\x64{3}]`
(with `\x64` a decimal digit), and nothing may follow. -/
def timestampMatches (s : String) : Bool :=
  match (((((((((((((((expectLit tsHeadLit s.data).bind
      (expectDigits 4)).bind (expectLit ['-'])).bind
      (expectDigits 2)).bind (expectLit ['-'])).bind
      (expectDigits 2)).bind (expectLit [' '])).bind
      (expectDigits 2)).bind (expectLit [':'])).bind
      (expectDigits 2)).bind (expectLit [':'])).bind
      (expectDigits 2)).bind (expectLit ['.'])).bind
      (expectDigits 3)).bind (expectLit tsTailLit)) with
  | some [] => true
  | _ => false

theorem digitChar_isDigit {d : Nat} (h : d < 10) : (digitChar d).isDigit = true := by
  interval_cases d <;> decide

theorem decAux_all_digits : ∀ n : Nat, ∀ c ∈ decAux n, c.isDigit = true := by
  intro n
  induction n using Nat.strong_induction_on with
  | _ n ih =>
    cases n with
    | zero => simp [decAux, decAuxF]
    | succ m =>
      rw [decAux_succ]
      intro c hc
      rw [List.mem_append] at hc
      cases hc with
      | inl h =>
        exact ih ((m + 1) / 10) (Nat.div_lt_self (Nat.succ_pos m) (by norm_num)) c h
      | inr h =>
        rw [List.mem_singleton] at h
        subst h
        exact digitChar_isDigit (Nat.mod_lt _ (by norm_num))

theorem decChars_all_digits (n : Nat) : ∀ c ∈ decChars n, c.isDigit = true := by
  unfold decChars
  split
  · simp
  · exact decAux_all_digits n

theorem decAux_length_le : ∀ (k n : Nat), n < 10 ^ k → (decAux n).length ≤ k := by
  intro k
  induction k with
  | zero =>
    intro n h
    simp at h
    subst h
    simp [decAux, decAuxF]
  | succ k ih =>
    intro n h
    cases n with
    | zero => simp [decAux, decAuxF]
    | succ m =>
      rw [decAux_succ]
      simp only [List.length_append, List.length_singleton]
      have hdiv : (m + 1) / 10 < 10 ^ k := by
        rw [Nat.div_lt_iff_lt_mul (by norm_num)]
        calc m + 1 < 10 ^ (k + 1) := h
          _ = 10 ^ k * 10 := by ring
      have := ih ((m + 1) / 10) hdiv
      omega

theorem decChars_length_le {k n : Nat} (hk : 1 ≤ k) (h : n < 10 ^ k) :
    (decChars n).length ≤ k := by
  unfold decChars
  split
  · simpa
  · exact decAux_length_le k n h

theorem pad0_length {w : Nat} {s : List Char} (h : s.length ≤ w) :
    (pad0 w s).length = w := by
  simp [pad0]
  omega

theorem pad0_all_digits {w : Nat} {s : List Char} (h : ∀ c ∈ s, c.isDigit = true) :
    ∀ c ∈ pad0 w s, c.isDigit = true := by
  intro c hc
  rw [pad0, List.mem_append] at hc
  cases hc with
  | inl h2 =>
    have := List.eq_of_mem_replicate h2
    subst this
    decide
  | inr h2 => exact h c h2

theorem fmtDec_length {w n : Nat} (hw : 1 ≤ w) (h : n < 10 ^ w) :
    (fmtDec w n).length = w :=
  pad0_length (decChars_length_le hw h)

theorem fmtDec_all_digits (w n : Nat) : ∀ c ∈ fmtDec w n, c.isDigit = true :=
  pad0_all_digits (decChars_all_digits n)

theorem expectDigits_chain : ∀ {cs : List Char} {k : Nat},
    (∀ c ∈ cs, c.isDigit = true) → cs.length = k → ∀ rest : List Char,
    expectDigits k (cs ++ rest) = some rest := by
  intro cs
  induction cs with
  | nil =>
    intro k _ hk rest
    subst hk
    simp [expectDigits]
  | cons c cs ih =>
    intro k hd hk rest
    subst hk
    simp only [List.length_cons, List.cons_append]
    rw [expectDigits]
    rw [hd c (by simp)]
    simp only [if_true]
    exact ih (fun x hx => hd x (by simp [hx])) rfl rest

theorem expectLit_chain : ∀ (ls rest : List Char), expectLit ls (ls ++ rest) = some rest := by
  intro ls
  induction ls with
  | nil => intro rest; simp [expectLit]
  | cons l ls ih =>
    intro rest
    simp only [List.cons_append]
    rw [expectLit]
    simp [ih]

theorem dataRESET : RESET.data = ['\x1b', '[', '0', 'm'] := rfl

theorem dataGREEN : GREEN.data = ['\x1b', '[', '3', '2', 'm'] := rfl

theorem dataLB : ("[" : String).data = ['['] := rfl

theorem dataDash : ("-" : String).data = ['-'] := rfl

theorem dataSpace : (" " : String).data = [' '] := rfl

theorem dataColon : (":" : String).data = [':'] := rfl

theorem dataDot : ("." : String).data = ['.'] := rfl

theorem dataRBSp : ("] " : String).data = [']', ' '] := rfl

/-- Character-level decomposition of the timestamp formatter output. -/
theorem generate_timestamp_data (t : LocalTime) :
    (generate_timestamp t).data =
      tsHeadLit ++ (fmtDec 4 t.year ++ ('-' :: (fmtDec 2 t.month ++ ('-' ::
        (fmtDec 2 t.day ++ (' ' :: (fmtDec 2 t.hour ++ (':' ::
        (fmtDec 2 t.minute ++ (':' :: (fmtDec 2 t.second ++ ('.' ::
        (fmtDec 3 t.millis ++ tsTailLit))))))))))))) := by
  simp only [generate_timestamp, strData_append, fmtDecS, strData_mk,
    dataRESET, dataGREEN, dataLB, dataDash, dataSpace, dataColon, dataDot, dataRBSp,
    tsHeadLit, tsTailLit]
  simp [List.append_assoc]

theorem expectLit_one (c : Char) (rest : List Char) :
    expectLit [c] (c :: rest) = some rest := by
  rw [expectLit]
  simp [expectLit]

theorem expectLit_self (ls : List Char) : expectLit ls ls = some [] := by
  have := expectLit_chain ls []
  simpa using this

/-- Decides whether a character is a decimal digit or a lowercase `a`-`f`
hex digit, the alphabet Rust `{:x}` emits. -/
def isLowerHexDigit (c : Char) : Bool :=
  c.isDigit || (97 ≤ c.toNat && c.toNat ≤ 102)

theorem digitChar_isLowerHex {d : Nat} (h : d < 16) :
    isLowerHexDigit (digitChar d) = true := by
  interval_cases d <;> decide

theorem hexAux_all_lower : ∀ n : Nat, ∀ c ∈ hexAux n, isLowerHexDigit c = true := by
  intro n
  induction n using Nat.strong_induction_on with
  | _ n ih =>
    cases n with
    | zero => simp [hexAux, hexAuxF]
    | succ m =>
      rw [hexAux_succ]
      intro c hc
      rw [List.mem_append] at hc
      cases hc with
      | inl h =>
        exact ih ((m + 1) / 16) (Nat.div_lt_self (Nat.succ_pos m) (by norm_num)) c h
      | inr h =>
        rw [List.mem_singleton] at h
        subst h
        exact digitChar_isLowerHex (Nat.mod_lt _ (by norm_num))

theorem hexChars_all_lower (n : Nat) : ∀ c ∈ hexChars n, isLowerHexDigit c = true := by
  unfold hexChars
  split
  · simp
    decide
  · exact hexAux_all_lower n

theorem hexAux_length_le : ∀ (k n : Nat), n < 16 ^ k → (hexAux n).length ≤ k := by
  intro k
  induction k with
  | zero =>
    intro n h
    simp at h
    subst h
    simp [hexAux, hexAuxF]
  | succ k ih =>
    intro n h
    cases n with
    | zero => simp [hexAux, hexAuxF]
    | succ m =>
      rw [hexAux_succ]
      simp only [List.length_append, List.length_singleton]
      have hdiv : (m + 1) / 16 < 16 ^ k := by
        rw [Nat.div_lt_iff_lt_mul (by norm_num)]
        calc m + 1 < 16 ^ (k + 1) := h
          _ = 16 ^ k * 16 := by ring
      have := ih ((m + 1) / 16) hdiv
      omega

theorem hexChars_length_le {k n : Nat} (hk : 1 ≤ k) (h : n < 16 ^ k) :
    (hexChars n).length ≤ k := by
  unfold hexChars
  split
  · simpa
  · exact hexAux_length_le k n h

theorem pad0_all_lower {w : Nat} {s : List Char}
    (h : ∀ c ∈ s, isLowerHexDigit c = true) :
    ∀ c ∈ pad0 w s, isLowerHexDigit c = true := by
  intro c hc
  rw [pad0, List.mem_append] at hc
  cases hc with
  | inl h2 =>
    have := List.eq_of_mem_replicate h2
    subst this
    decide
  | inr h2 => exact h c h2

theorem fmtHex_length {w n : Nat} (hw : 1 ≤ w) (h : n < 16 ^ w) :
    (fmtHex w n).length = w :=
  pad0_length (hexChars_length_le hw h)

theorem fmtHex_all_lower (w n : Nat) : ∀ c ∈ fmtHex w n, isLowerHexDigit c = true :=
  pad0_all_lower (hexChars_all_lower n)

/-- C1: for every sequence of read chunks, the reassembler drains exactly
one line per newline byte of the concatenation, the lines joined with the
leftover buffer reproduce the concatenation byte-for-byte (nothing dropped
or duplicated, arrival order kept), every line is newline-terminated with no
interior newline, the leftover carries to the next cycle, chunk boundaries
are invisible (processing chunk-by-chunk equals processing the whole
concatenation at once), and feeding "AB" then "CD\n" yields exactly the one
line "ABCD\n". -/
theorem reassembler_no_byte_loss (chunks : List (List Nat)) :
    processChunks chunks [] = extractLines chunks.flatten ∧
    (processChunks chunks []).1.length = chunks.flatten.count 10 ∧
    (processChunks chunks []).1.flatten ++ (processChunks chunks []).2 = chunks.flatten ∧
    (∀ l ∈ (processChunks chunks []).1, ∃ pre, l = pre ++ [10] ∧ (10 : Nat) ∉ pre) ∧
    (10 : Nat) ∉ (processChunks chunks []).2 ∧
    processChunks [[65, 66], [67, 68, 10]] [] = ([[65, 66, 67, 68, 10]], []) := by
  have h0 : findNL ([] : List Nat) = none := rfl
  have he : processChunks chunks [] = extractLines chunks.flatten := by
    have := processChunks_eq_extractLines chunks [] h0
    simpa using this
  refine ⟨he, ?_, ?_, ?_, ?_, by decide⟩
  · rw [he]
    exact extractLines_count chunks.flatten
  · rw [he]
    exact extractLines_join chunks.flatten
  · rw [he]
    exact extractLines_shape chunks.flatten
  · rw [he]
    exact findNL_eq_none_iff.mp (extractLines_rem chunks.flatten)

theorem reassembler_no_byte_loss_witness :
    (processChunks [[65], [10, 66, 10]] []).1.length =
      (([[65], [10, 66, 10]] : List (List Nat)).flatten).count 10 ∧
    (∃ pre, [65, 10] = pre ++ [10] ∧ (10 : Nat) ∉ pre) := by
  constructor
  · exact (reassembler_no_byte_loss [[65], [10, 66, 10]]).2.1
  · exact (reassembler_no_byte_loss [[65], [10, 66, 10]]).2.2.2.1 [65, 10] (by decide)

/-- C6: a read that times out produces no events on either sink, no
diagnostic and no lines, leaves the accumulation buffer unchanged, and does
not exit, so the loop immediately issues the next read. -/
theorem timeout_is_silent (output : Option String) (ts : Nat → LocalTime)
    (fopen : Nat → Except String Unit) (buf : List Nat) :
    loopIter output ts fopen buf ReadResult.timedOut = ([], (buf, none)) := rfl

/-- C7: any non-timeout read error is reported as a diagnostic, emits no
lines and no sink writes, leaves the accumulation buffer unchanged, and does
not exit, so the loop keeps attempting further reads. -/
theorem read_error_nonfatal (output : Option String) (ts : Nat → LocalTime)
    (fopen : Nat → Except String Unit) (buf : List Nat) (msg : String) :
    loopIter output ts fopen buf (ReadResult.err msg) =
      ([Event.diag msg], (buf, none)) := rfl

/-- C8: after an iteration of the streaming loop finishes its extraction
pass the accumulation buffer holds no newline byte (given the invariant held
before the iteration, as it does for the initial empty buffer), and every
extracted line is non-empty, has the newline as its last byte, and holds no
newline at any earlier position. -/
theorem buffer_newline_free_invariant (output : Option String) (ts : Nat → LocalTime)
    (fopen : Nat → Except String Unit) (buf : List Nat) (r : ReadResult)
    (h : (10 : Nat) ∉ buf) :
    (10 : Nat) ∉ (loopIter output ts fopen buf r).2.1 ∧
    (∀ s : List Nat, ∀ l ∈ (extractLines s).1,
      l ≠ [] ∧ l.getLast? = some 10 ∧ ∀ i, i + 1 < l.length → l.get? i ≠ some 10) := by
  constructor
  · cases r with
    | ok chunk =>
      simp only [loopIter]
      exact findNL_eq_none_iff.mp (extractLines_rem (buf ++ chunk))
    | timedOut => exact h
    | err msg => exact h
  · intro s l hl
    obtain ⟨pre, rfl, hpre⟩ := extractLines_shape s l hl
    refine ⟨by simp, List.getLast?_concat pre, ?_⟩
    intro i hi hcon
    have hilt : i < pre.length := by
      simp at hi
      omega
    rw [List.get?_append hilt] at hcon
    exact hpre (List.get?_mem hcon)

theorem buffer_newline_free_invariant_witness :
    (10 : Nat) ∉ (loopIter none (fun _ => ⟨0, 0, 0, 0, 0, 0, 0⟩)
      (fun _ => Except.ok ()) [65] (ReadResult.ok [10, 66])).2.1 ∧
    ([65, 10] ≠ ([] : List Nat) ∧ List.getLast? [65, 10] = some 10) := by
  have h := buffer_newline_free_invariant none (fun _ => ⟨0, 0, 0, 0, 0, 0, 0⟩)
    (fun _ => Except.ok ()) [65] (ReadResult.ok [10, 66]) (by decide)
  refine ⟨h.1, ?_, ?_⟩
  · exact (h.2 [65, 10] [65, 10] (by decide)).1
  · exact (h.2 [65, 10] [65, 10] (by decide)).2.1

/-- C2: for every sampled instant whose fields lie in their calendar ranges
(year below 10000, month/day/hour/minute/second below 100, milliseconds
below 1000 — all satisfied by ordinary clock readings, including midnight
and single-digit field values, which zero-pad), the formatter output
matches the fixed ANSI-framed pattern with a 4-digit year, 2-digit
month/day/hour/minute/second, and exactly 3 millisecond digits. -/
theorem timestamp_fixed_width (t : LocalTime)
    (hy : t.year < 10 ^ 4) (hmo : t.month < 10 ^ 2) (hd : t.day < 10 ^ 2)
    (hh : t.hour < 10 ^ 2) (hmi : t.minute < 10 ^ 2) (hs : t.second < 10 ^ 2)
    (hms : t.millis < 10 ^ 3) :
    timestampMatches (generate_timestamp t) = true := by
  unfold timestampMatches
  rw [generate_timestamp_data t]
  rw [expectLit_chain]
  simp only [Option.bind]
  rw [expectDigits_chain (fmtDec_all_digits 4 t.year) (fmtDec_length (by norm_num) hy)]
  simp only [Option.bind]
  rw [expectLit_one]
  simp only [Option.bind]
  rw [expectDigits_chain (fmtDec_all_digits 2 t.month) (fmtDec_length (by norm_num) hmo)]
  simp only [Option.bind]
  rw [expectLit_one]
  simp only [Option.bind]
  rw [expectDigits_chain (fmtDec_all_digits 2 t.day) (fmtDec_length (by norm_num) hd)]
  simp only [Option.bind]
  rw [expectLit_one]
  simp only [Option.bind]
  rw [expectDigits_chain (fmtDec_all_digits 2 t.hour) (fmtDec_length (by norm_num) hh)]
  simp only [Option.bind]
  rw [expectLit_one]
  simp only [Option.bind]
  rw [expectDigits_chain (fmtDec_all_digits 2 t.minute) (fmtDec_length (by norm_num) hmi)]
  simp only [Option.bind]
  rw [expectLit_one]
  simp only [Option.bind]
  rw [expectDigits_chain (fmtDec_all_digits 2 t.second) (fmtDec_length (by norm_num) hs)]
  simp only [Option.bind]
  rw [expectLit_one]
  simp only [Option.bind]
  rw [expectDigits_chain (fmtDec_all_digits 3 t.millis) (fmtDec_length (by norm_num) hms)]
  simp only [Option.bind]
  rw [expectLit_self]

theorem timestamp_fixed_width_witness :
    timestampMatches (generate_timestamp ⟨2026, 1, 2, 3, 4, 5, 6⟩) = true :=
  timestamp_fixed_width ⟨2026, 1, 2, 3, 4, 5, 6⟩ (by decide) (by decide) (by decide)
    (by decide) (by decide) (by decide) (by decide)

theorem toNatEsc : Char.toNat '\x1b' = 27 := rfl

theorem toNatLB : Char.toNat '[' = 91 := rfl

theorem toNatZero : Char.toNat '0' = 48 := rfl

theorem toNatM : Char.toNat 'm' = 109 := rfl

theorem toNatThree : Char.toNat '3' = 51 := rfl

theorem toNatTwo : Char.toNat '2' = 50 := rfl

theorem toNatRB : Char.toNat ']' = 93 := rfl

theorem toNatSp : Char.toNat ' ' = 32 := rfl

theorem toNatDash : Char.toNat '-' = 45 := rfl

theorem toNatColon : Char.toNat ':' = 58 := rfl

theorem toNatDot : Char.toNat '.' = 46 := rfl

/-- C3: every record is byte-for-byte the reset escape, an opening bracket,
the green escape, the digit fields with their separators, the reset escape,
a closing bracket and a space, immediately followed by the raw line bytes
unchanged (trailing newline included); and the loop writes exactly this
record to stdout for each line. -/
theorem record_byte_format (t : LocalTime) (line : List Nat) :
    record t line =
      [27, 91, 48, 109, 91, 27, 91, 51, 50, 109] ++
        ((fmtDec 4 t.year).map Char.toNat ++ (45 ::
        ((fmtDec 2 t.month).map Char.toNat ++ (45 ::
        ((fmtDec 2 t.day).map Char.toNat ++ (32 ::
        ((fmtDec 2 t.hour).map Char.toNat ++ (58 ::
        ((fmtDec 2 t.minute).map Char.toNat ++ (58 ::
        ((fmtDec 2 t.second).map Char.toNat ++ (46 ::
        ((fmtDec 3 t.millis).map Char.toNat ++
          ([27, 91, 48, 109, 93, 32] ++ line)))))))))))))) ∧
    (∀ ts : Nat → LocalTime, ∀ fopen : Nat → Except String Unit,
      processLines none ts fopen [line] 0 =
        ([Event.consoleWrite (record (ts 0) line)], none)) := by
  constructor
  · unfold record strBytes
    rw [generate_timestamp_data t]
    simp only [List.map_append, List.map_cons, List.map_nil, tsHeadLit, tsTailLit,
      toNatEsc, toNatLB, toNatZero, toNatM, toNatThree, toNatTwo, toNatRB, toNatSp,
      toNatDash, toNatColon, toNatDot,
      List.append_assoc, List.cons_append, List.nil_append]
  · intro ts fopen
    rfl

/-- C4: with an output file configured and every per-line file open
succeeding, every drained line contributes exactly one console write
followed by one file write of byte-identical content (console first), and
the iteration does not exit. -/
theorem dual_sink_equality (path : String) (ts : Nat → LocalTime)
    (lines : List (List Nat)) (i : Nat) :
    processLines (some path) ts (fun _ => Except.ok ()) lines i =
      ((List.enumFrom i lines).flatMap (fun p =>
        [Event.consoleWrite (record (ts p.1) p.2),
         Event.fileWrite (record (ts p.1) p.2)]),
       none) := by
  induction lines generalizing i with
  | nil => rfl
  | cons l ls ih =>
    simp only [processLines, List.enumFrom, List.flatMap_cons, List.cons_append]
    rw [ih (i + 1)]
    simp

/-- C5: a failed serial-port open and a failed output-file open both print
the diagnostic naming the path and the underlying error and exit with
status 1 (the console write of the current line precedes the file-open
attempt), while the list path always yields exit status 0, with the generic
listing error reported on stderr when enumeration fails. -/
theorem fatal_open_failures (path e : String) (ts : Nat → LocalTime)
    (l : List Nat) (ls : List (List Nat)) (i : Nat) :
    openPort path (Except.error e) =
      ([Event.diag ("Failed to open \"" ++ path ++ "\". Error: " ++ e)], some 1) ∧
    processLines (some path) ts (fun _ => Except.error e) (l :: ls) i =
      ([Event.consoleWrite (record (ts i) l),
        Event.diag ("Failed to open \"" ++ path ++ "\". Error: " ++ e)], some 1) ∧
    (∀ res : Option (List PortInfo), (runList res).2 = 0) ∧
    (runList none).1.2 = ["Error listing serial ports"] :=
  ⟨rfl, rfl, fun _ => rfl, rfl⟩

/-- C9: the list header reads "No ports found." for zero ports,
"Found 1 port:" for one, and "Found N ports:" for N greater than one, and
it is the first stdout line of the listing. -/
theorem listing_count_header :
    portCountHeader 0 = "No ports found." ∧
    portCountHeader 1 = "Found 1 port:" ∧
    (∀ n : Nat, 1 < n → portCountHeader n = "Found " ++ String.mk (decChars n) ++ " ports:") ∧
    portCountHeader 3 = "Found 3 ports:" ∧
    (∀ ports : List PortInfo, (list_ports (some ports)).1 =
      portCountHeader ports.length :: ports.flatMap printPortLines) := by
  refine ⟨rfl, rfl, ?_, by decide, fun _ => rfl⟩
  intro n hn
  match n, hn with
  | m + 2, _ => rfl

theorem listing_count_header_witness : portCountHeader 5 = "Found 5 ports:" := by
  have h := (listing_count_header).2.2.1 5 (by norm_num)
  rw [h]
  decide

/-- C10: USB vendor and product ids render as 4-digit zero-padded lowercase
hexadecimal (vid 0x0403, pid 0x6001 give "VID:0403 PID:6001"), and an
absent optional string field renders as an empty value after its padded
label, not omitted and not "null". -/
theorem usb_field_formatting (info : UsbPortInfo)
    (hv : info.vid < 16 ^ 4) (hp : info.pid < 16 ^ 4) :
    print_usb_info info =
      ["    VID:" ++ fmtHexS 4 info.vid ++ " PID:" ++ fmtHexS 4 info.pid,
       print_optional_info "Serial Number" info.serial_number,
       print_optional_info "Manufacturer" info.manufacturer,
       print_optional_info "Product" info.product] ∧
    (fmtHexS 4 info.vid).length = 4 ∧ (fmtHexS 4 info.pid).length = 4 ∧
    ((fmtHexS 4 info.vid).data.all isLowerHexDigit) = true ∧
    ((fmtHexS 4 info.pid).data.all isLowerHexDigit) = true ∧
    usbIdLine 1027 24577 = "    VID:0403 PID:6001" ∧
    (∀ label, print_optional_info label none = "    " ++ padRight 15 label ++ ": ") ∧
    (∀ label s, print_optional_info label (some s) =
      "    " ++ padRight 15 label ++ ": " ++ s) := by
  refine ⟨rfl, ?_, ?_, ?_, ?_, by decide, fun label => by
    simp [print_optional_info, String.append_empty], fun _ _ => rfl⟩
  · exact fmtHex_length (by norm_num) hv
  · exact fmtHex_length (by norm_num) hp
  · rw [List.all_eq_true]
    exact fmtHex_all_lower 4 info.vid
  · rw [List.all_eq_true]
    exact fmtHex_all_lower 4 info.pid

theorem usb_field_formatting_witness :
    (fmtHexS 4 1027).length = 4 ∧ usbIdLine 1027 24577 = "    VID:0403 PID:6001" := by
  have h := usb_field_formatting ⟨1027, 24577, none, none, none⟩ (by decide) (by decide)
  exact ⟨h.2.1, h.2.2.2.2.2.1⟩
